import Mathlib

/-!
Verification of the go-joe event brain and the hierarchical permission
checker against their natural-language specification.  The definitions
below are shallow embeddings of the Go source: `Auth.Grant` / `Auth.Revoke`
follow `auth.go`, and the `Brain` definitions follow the event loop in
`brain.go` (`Emit`, `HandleEvents`, `consumeEvents`, `handleEvent`,
`determineHandlers`, `checkHandlerParams`, `checkHandlerReturnValues`,
`newHandlerFunc`, `Shutdown`).
-/

namespace Joe

/-! ### Permission scopes (`auth.go`)

Scopes are strings; `strings.HasPrefix(s, p)` is `p.isPrefixOf s` on the
character list.  A user's stored permissions live in the bot Memory under
one key; we model that single cell as `Option (List Scope)` where `none`
means the key is absent. -/

abbrev Scope := List Char

/-- The function `loadPermissions` returns the decoded permission list, or an empty list
when the memory key is absent (`auth.go`, `loadPermissions`). -/
def loadPermissions : Option (List Scope) → List Scope
  | none => []
  | some l => l

/-- The loop body of `Auth.Grant`: walk the old permissions; return `none`
(the Go early `return false, nil`) as soon as some stored scope is itself a
prefix of the new scope; otherwise drop every stored scope that has the new
scope as a prefix and keep the rest in order. -/
def grantLoop (scope : Scope) : List Scope → Option (List Scope)
  | [] => some []
  | p :: rest =>
      if p.isPrefixOf scope then
        none
      else
        match grantLoop scope rest with
        | none => none
        | some acc => if scope.isPrefixOf p then some acc else some (p :: acc)

/-- Model of `Auth.Grant` on the user's memory cell (`auth.go`, lines 97-137).
Returns the `(bool, error)` pair as `Except String Bool` together with the
new state of the memory cell. -/
def Auth.Grant (scope : Scope) (cell : Option (List Scope)) :
    Except String Bool × Option (List Scope) :=
  if scope = [] then (Except.error "scope cannot be empty", cell)
  else
    match grantLoop scope (loadPermissions cell) with
    | none => (Except.ok false, cell)
    | some kept => (Except.ok true, some (kept ++ [scope]))

/-- The loop body of `Auth.Revoke`: drop occurrences of the revoked scope
(recording that something was revoked), fail (`none`) as soon as some other
stored scope is a prefix of the revoked one, and keep the rest in order. -/
def revokeLoop (scope : Scope) : List Scope → Option (Bool × List Scope)
  | [] => some (false, [])
  | p :: rest =>
      if p = scope then
        match revokeLoop scope rest with
        | none => none
        | some (_, acc) => some (true, acc)
      else if p.isPrefixOf scope then
        none
      else
        match revokeLoop scope rest with
        | none => none
        | some (rev, acc) => some (rev, p :: acc)

/-- Model of `Auth.Revoke` on the user's memory cell (`auth.go`, lines 144-203).
When the last stored scope is revoked the memory key is deleted (`none`),
not overwritten with an empty list. -/
def Auth.Revoke (scope : Scope) (cell : Option (List Scope)) :
    Except String Bool × Option (List Scope) :=
  if scope = [] then (Except.error "scope cannot be empty", cell)
  else if loadPermissions cell = [] then (Except.ok false, cell)
  else
    match revokeLoop scope (loadPermissions cell) with
    | none =>
        (Except.error "cannot revoke scope because the user still has a more general scope", cell)
    | some (revoked, kept) =>
        if revoked = false then (Except.ok false, cell)
        else if kept = [] then (Except.ok true, none)
        else (Except.ok true, some kept)

/-- The stored permission list is an antichain for the scope-containment
order: no stored scope is a prefix of another stored scope (this also rules
out duplicates, since every list is a prefix of itself). -/
def Antichain (l : List Scope) : Prop :=
  l.Pairwise (fun a b => ¬ a <+: b ∧ ¬ b <+: a)

/-- Well-formedness of the user's memory cell: either the key is absent, or
it stores a non-empty antichain of scopes. -/
def WFCell : Option (List Scope) → Prop
  | none => True
  | some l => l ≠ [] ∧ Antichain l

/-- A single permission operation on one user. -/
inductive AuthOp where
  | grant (scope : Scope)
  | revoke (scope : Scope)

/-- The state change of one permission operation. -/
def applyOp (cell : Option (List Scope)) : AuthOp → Option (List Scope)
  | .grant s => (Auth.Grant s cell).2
  | .revoke s => (Auth.Revoke s cell).2

/-- Folding a sequence of permission operations over the memory cell. -/
def applyOps : Option (List Scope) → List AuthOp → Option (List Scope)
  | cell, [] => cell
  | cell, op :: ops => applyOps (applyOp cell op) ops

theorem grantLoop_sublist {scope : Scope} :
    ∀ {old kept : List Scope}, grantLoop scope old = some kept → kept.Sublist old := by
  intro old
  induction old with
  | nil =>
    intro kept h
    simp only [grantLoop, Option.some.injEq] at h
    simp [← h]
  | cons p rest ih =>
    intro kept h
    unfold grantLoop at h
    split at h
    · exact absurd h (by simp)
    · split at h
      · exact absurd h (by simp)
      · rename_i acc hacc
        split at h
        · exact (Option.some.inj h) ▸ ((ih hacc).cons p)
        · exact (Option.some.inj h) ▸ ((ih hacc).cons₂ p)

theorem grantLoop_flags {scope : Scope} :
    ∀ {old kept : List Scope}, grantLoop scope old = some kept →
      ∀ p ∈ kept, p.isPrefixOf scope = false ∧ scope.isPrefixOf p = false := by
  intro old
  induction old with
  | nil =>
    intro kept h
    simp only [grantLoop, Option.some.injEq] at h
    simp [← h]
  | cons p rest ih =>
    intro kept h
    unfold grantLoop at h
    split at h
    · exact absurd h (by simp)
    · rename_i hp
      split at h
      · exact absurd h (by simp)
      · rename_i acc hacc
        split at h
        · exact (Option.some.inj h) ▸ (fun q hq => ih hacc q hq)
        · rename_i hsp
          intro q hq
          rcases List.mem_cons.mp ((Option.some.inj h) ▸ hq) with hq | hq
          · subst hq
            exact ⟨Bool.not_eq_true _ ▸ hp, Bool.not_eq_true _ ▸ hsp⟩
          · exact ih hacc q hq

theorem revokeLoop_sublist {scope : Scope} :
    ∀ {old : List Scope} {r : Bool × List Scope},
      revokeLoop scope old = some r → r.2.Sublist old := by
  intro old
  induction old with
  | nil =>
    intro r h
    simp only [revokeLoop, Option.some.injEq] at h
    simp [← h]
  | cons p rest ih =>
    intro r h
    unfold revokeLoop at h
    split at h
    · split at h
      · exact absurd h (by simp)
      · rename_i fst acc hacc
        obtain rfl := Option.some.inj h
        exact (ih hacc).cons p
    · split at h
      · exact absurd h (by simp)
      · split at h
        · exact absurd h (by simp)
        · rename_i rev acc hacc
          obtain rfl := Option.some.inj h
          exact (ih hacc).cons₂ p

theorem antichain_of_cell {cell : Option (List Scope)} (h : WFCell cell) :
    Antichain (loadPermissions cell) := by
  cases cell with
  | none => simp [loadPermissions, Antichain]
  | some l => exact h.2

theorem wf_grant (scope : Scope) (cell : Option (List Scope)) (h : WFCell cell) :
    WFCell (Auth.Grant scope cell).2 := by
  unfold Auth.Grant
  split
  · exact h
  · rcases hloop : grantLoop scope (loadPermissions cell) with _ | kept
    · simpa [hloop] using h
    · simp only [hloop]
      refine ⟨by simp, ?_⟩
      have hsub := grantLoop_sublist hloop
      have hflags := grantLoop_flags hloop
      have hA : Antichain (loadPermissions cell) := antichain_of_cell h
      rw [Antichain, List.pairwise_append]
      refine ⟨hA.sublist hsub, List.pairwise_singleton _ _, ?_⟩
      intro a ha b hb
      rcases List.mem_singleton.mp hb with rfl
      obtain ⟨h1, h2⟩ := hflags a ha
      constructor
      · intro hcon
        exact absurd (List.isPrefixOf_iff_prefix.mpr hcon) (by simp [h1])
      · intro hcon
        exact absurd (List.isPrefixOf_iff_prefix.mpr hcon) (by simp [h2])

theorem wf_revoke (scope : Scope) (cell : Option (List Scope)) (h : WFCell cell) :
    WFCell (Auth.Revoke scope cell).2 := by
  unfold Auth.Revoke
  split
  · exact h
  · split
    · exact h
    · rcases hloop : revokeLoop scope (loadPermissions cell) with _ | r
      · simpa [hloop] using h
      · simp only [hloop]
        split
        · exact h
        · split
          · trivial
          · rename_i hne
            exact ⟨hne, (antichain_of_cell h).sublist (revokeLoop_sublist hloop)⟩

theorem wf_applyOps {cell : Option (List Scope)} (h : WFCell cell) :
    ∀ ops : List AuthOp, WFCell (applyOps cell ops) := by
  intro ops
  induction ops generalizing cell with
  | nil => exact h
  | cons op rest ih =>
    cases op with
    | grant s => exact ih (wf_grant s cell h)
    | revoke s => exact ih (wf_revoke s cell h)

/-- C9: `Auth.Grant` is idempotent and collapsing.  Granting scope "a.b"
twice stores exactly one scope "a.b" and the second call returns false
without changing the stored permissions; granting "a" to a user previously
granted "a.b.c" replaces the stored set with the single broader scope "a";
more generally every stored scope having the new scope as a prefix is
removed while unrelated scopes are kept. -/
theorem Auth.grant_idempotent_collapsing :
    (Auth.Grant ['a', '.', 'b'] none = (Except.ok true, some [['a', '.', 'b']]) ∧
     Auth.Grant ['a', '.', 'b'] (some [['a', '.', 'b']]) =
       (Except.ok false, some [['a', '.', 'b']])) ∧
    (Auth.Grant ['a', '.', 'b', '.', 'c'] none =
       (Except.ok true, some [['a', '.', 'b', '.', 'c']]) ∧
     Auth.Grant ['a'] (some [['a', '.', 'b', '.', 'c']]) =
       (Except.ok true, some [['a']])) ∧
    Auth.Grant ['a'] (some [['a', '.', 'b', '.', 'c'], ['b']]) =
      (Except.ok true, some [['b'], ['a']]) := by
  refine ⟨⟨?_, ?_⟩, ⟨?_, ?_⟩, ?_⟩ <;> rfl

/-- C10: starting from a user with no stored permissions, every sequence of
grant and revoke operations keeps the stored permission list an antichain
for the string-prefix order (no duplicates, no stored scope a prefix of
another), and the memory key is deleted (`none`) instead of ever storing an
empty list — in particular revoking the last remaining scope removes the
key entirely. -/
theorem Auth.ops_preserve_antichain :
    (∀ ops : List AuthOp, WFCell (applyOps none ops)) ∧
    (Auth.Revoke ['a'] (some [['a']])).2 = none := by
  exact ⟨fun ops => wf_applyOps (show WFCell none from trivial) ops, rfl⟩

/-! ### Go runtime types and handler registration (`brain.go`)

`registerHandler` inspects the handler with the reflect API.  We model the
fragment of Go's type system it consults: concrete (non-interface) types
with a method set, interface types (a method set to be satisfied), and
pointer types.  `reflect.Type.Implements` is Go's structural (duck-typed)
interface check: every method of the interface is in the type's method
set. -/

inductive GoType where
  | concrete (id : Nat) (methods : List Nat)
  | ifaceT (methods : List Nat)
  | ptrT (elem : GoType)
  deriving DecidableEq, Repr

def GoType.methodSet : GoType → List Nat
  | .concrete _ ms => ms
  | .ifaceT ms => ms
  | .ptrT e => e.methodSet

/-- Checks `t.Kind() == reflect.Ptr`. -/
def GoType.isPtrKind : GoType → Bool
  | .ptrT _ => true
  | _ => false

/-- Checks `t.Kind() == reflect.Interface`. -/
def GoType.isIfaceKind : GoType → Bool
  | .ifaceT _ => true
  | _ => false

/-- Go's `t.Implements(i)`: structural interface satisfaction. -/
def goImplements (t i : GoType) : Bool :=
  i.methodSet.all (fun m => t.methodSet.contains m)

/-- The method set of `context.Context` (Deadline, Done, Err, Value). -/
def contextIface : GoType := .ifaceT [0, 1, 2, 3]

/-- The method set of the builtin `error` interface (Error). -/
def errorIface : GoType := .ifaceT [10]

/-- The reflected type of the value passed to `RegisterHandler`: either a
function type with its parameter and result types, or some non-function
value. -/
inductive GoValueType where
  | funcT (params : List GoType) (rets : List GoType)
  | nonFunc (t : GoType)
  deriving DecidableEq, Repr

/-- Model of `checkHandlerParams` (`brain.go`, lines 412-440), with the checks in
source order: arity 1 or 2; with two arguments the second must not itself
implement `context.Context` while the first must; the event argument must
not be a pointer. -/
def checkHandlerParams : List GoType → Except String (GoType × Bool)
  | [] => .error "event handler needs one or two arguments"
  | [evtType] =>
      if evtType.isPtrKind then .error "event handler argument cannot be a pointer"
      else .ok (evtType, false)
  | [p0, p1] =>
      if goImplements p1 contextIface then
        .error "event handler context must be the first argument"
      else if goImplements p0 contextIface = false then
        .error "event handler has two arguments but the first is not a context.Context"
      else if p1.isPtrKind then .error "event handler argument cannot be a pointer"
      else .ok (p1, true)
  | _ => .error "event handler needs one or two arguments"

/-- Model of `checkHandlerReturnValues` (`brain.go`, lines 442-456). -/
def checkHandlerReturnValues : List GoType → Except String Bool
  | [] => .ok false
  | [r] =>
      if goImplements r errorIface then .ok true
      else .error "if the event handler has a return value it must implement the error interface"
  | _ => .error "event handler has more than one return value"

/-- Model of `Brain.registerHandler` (`brain.go`, lines 148-176): reject
non-functions, then validate parameters and return values; on success
yield the event type, the with-context flag and the returns-error flag. -/
def registerHandler : GoValueType → Except String (GoType × Bool × Bool)
  | .nonFunc _ => .error "event handler is no function"
  | .funcT params rets =>
      match checkHandlerParams params with
      | .error e => .error e
      | .ok (evtType, withContext) =>
          match checkHandlerReturnValues rets with
          | .error e => .error e
          | .ok returnsErr => .ok (evtType, withContext, returnsErr)

/-- Model of `Brain.RegisterHandler` (`brain.go`, lines 139-146): a failed
validation appends one error to `registrationErrs` and never escapes. -/
def RegisterHandler (registrationErrs : List String) (v : GoValueType) : List String :=
  match registerHandler v with
  | .error e => registrationErrs ++ [e]
  | .ok _ => registrationErrs

/-- Whether registration succeeds. -/
def registrationOk (v : GoValueType) : Bool :=
  match registerHandler v with
  | .ok _ => true
  | .error _ => false

/-- The acceptance condition exactly as the claim words it: a function of
one or two parameters, the first implementing `context.Context` when there
are two, the event parameter not a pointer, and no return value or a
single error-implementing one. -/
def claimAllowsHandler : GoValueType → Bool
  | .nonFunc _ => false
  | .funcT params rets =>
      (match params with
       | [e] => !e.isPtrKind
       | [c, e] => goImplements c contextIface && !e.isPtrKind
       | _ => false) &&
      (match rets with
       | [] => true
       | [r] => goImplements r errorIface
       | _ => false)

/-- The claim's acceptance condition amended with the one extra check the
source makes: with two parameters, the second (the event) must not itself
implement `context.Context`. -/
def claimAllowsHandlerAmended : GoValueType → Bool
  | .nonFunc _ => false
  | .funcT params rets =>
      (match params with
       | [e] => !e.isPtrKind
       | [c, e] => goImplements c contextIface && !goImplements e contextIface && !e.isPtrKind
       | _ => false) &&
      (match rets with
       | [] => true
       | [r] => goImplements r errorIface
       | _ => false)

/-- C7 counterexample: a function whose two parameters both implement
`context.Context` satisfies every condition of the claim (two parameters,
first implements `context.Context`, event parameter is an interface and
not a pointer, no return values), yet `registerHandler` rejects it with
"event handler context must be the first argument". -/
theorem registerHandler_claim_counterexample :
    claimAllowsHandler (.funcT [contextIface, contextIface] []) = true ∧
    registerHandler (.funcT [contextIface, contextIface] []) =
      .error "event handler context must be the first argument" :=
  ⟨rfl, rfl⟩

/-- C7 (amended): `RegisterHandler` succeeds exactly when the value is a
function with one or two parameters whose first parameter (when there are
two) implements `context.Context` and whose second parameter does not
itself implement `context.Context`, whose event parameter is not a pointer
type, and whose return values are either absent or a single
error-implementing value; a violation appends exactly one descriptive
error to the accumulated registration errors and a valid registration
leaves them unchanged — registration never fails fatally. -/
theorem registerHandler_valid_iff (v : GoValueType) :
    (registrationOk v = claimAllowsHandlerAmended v) ∧
    (∀ errs : List String, registrationOk v = true → RegisterHandler errs v = errs) ∧
    (∀ errs : List String, registrationOk v = false →
       ∃ e, RegisterHandler errs v = errs ++ [e]) := by
  refine ⟨?_, ?_, ?_⟩
  · cases v with
    | nonFunc t => rfl
    | funcT params rets =>
      cases params with
      | nil => rfl
      | cons p0 ps =>
        cases ps with
        | nil =>
          cases he : p0.isPtrKind <;>
            (cases rets with
             | nil =>
                 simp [registrationOk, registerHandler, checkHandlerParams,
                   checkHandlerReturnValues, claimAllowsHandlerAmended, he]
             | cons r rs =>
                 cases rs with
                 | nil =>
                     cases hr : goImplements r errorIface <;>
                       simp [registrationOk, registerHandler, checkHandlerParams,
                         checkHandlerReturnValues, claimAllowsHandlerAmended, he, hr]
                 | cons r2 rs2 =>
                     simp [registrationOk, registerHandler, checkHandlerParams,
                       checkHandlerReturnValues, claimAllowsHandlerAmended, he])
        | cons p1 ps2 =>
          cases ps2 with
          | nil =>
            cases hA : goImplements p1 contextIface <;>
            cases hB : goImplements p0 contextIface <;>
            cases hC : p1.isPtrKind <;>
              (cases rets with
               | nil =>
                   simp [registrationOk, registerHandler, checkHandlerParams,
                     checkHandlerReturnValues, claimAllowsHandlerAmended, hA, hB, hC]
               | cons r rs =>
                   cases rs with
                   | nil =>
                       cases hr : goImplements r errorIface <;>
                         simp [registrationOk, registerHandler, checkHandlerParams,
                           checkHandlerReturnValues, claimAllowsHandlerAmended,
                           hA, hB, hC, hr]
                   | cons r2 rs2 =>
                       simp [registrationOk, registerHandler, checkHandlerParams,
                         checkHandlerReturnValues, claimAllowsHandlerAmended, hA, hB, hC])
          | cons p2 ps3 => rfl
  · intro errs hok
    unfold RegisterHandler
    cases hreg : registerHandler v with
    | error e => rw [registrationOk, hreg] at hok; cases hok
    | ok r => rfl
  · intro errs hbad
    unfold RegisterHandler
    cases hreg : registerHandler v with
    | error e => exact ⟨e, rfl⟩
    | ok r => rw [registrationOk, hreg] at hbad; cases hbad

/-- Witness for C7 (amended): a handler taking one plain struct parameter
registers without error, and a non-function value appends exactly one
error. -/
theorem registerHandler_valid_iff_witness :
    RegisterHandler [] (.funcT [GoType.concrete 5 []] []) = [] ∧
    ∃ e, RegisterHandler [] (.nonFunc (GoType.concrete 5 [])) = [] ++ [e] :=
  ⟨(registerHandler_valid_iff (.funcT [GoType.concrete 5 []] [])).2.1 [] rfl,
   (registerHandler_valid_iff (.nonFunc (GoType.concrete 5 []))).2.2 [] rfl⟩

/-! ### Handler resolution (`Brain.determineHandlers`) -/

/-- Model of `Brain.determineHandlers` (`brain.go`, lines 330-346): fan out over
every bucket of the handler registry; take a bucket's handlers when its
shape equals the event type exactly, and also when the shape is an
interface type that the event type implements.  Go map iteration order is
unspecified, so the registry is modelled as a list of buckets in arbitrary
order; the handler list inside a bucket is in registration order because
`registerHandler` appends to it. -/
def determineHandlers (registry : List (GoType × List Nat)) (evtType : GoType) : List Nat :=
  match registry with
  | [] => []
  | (shape, hh) :: rest =>
      ((if shape = evtType then hh else []) ++
        (if shape.isIfaceKind && goImplements evtType shape then hh else [])) ++
      determineHandlers rest evtType

theorem mem_bucketMatch {h : Nat} {shape evtType : GoType} {hh : List Nat} :
    (h ∈ (if shape = evtType then hh else []) ++
        (if shape.isIfaceKind && goImplements evtType shape then hh else [])) ↔
      h ∈ hh ∧ (shape = evtType ∨
        (shape.isIfaceKind = true ∧ goImplements evtType shape = true)) := by
  by_cases h1 : shape = evtType <;>
  by_cases h2 : (shape.isIfaceKind && goImplements evtType shape) = true <;>
    simp [h1, h2, Bool.and_eq_true] <;> simp [Bool.and_eq_true] at h2 <;> tauto

theorem mem_determineHandlers {registry : List (GoType × List Nat)} {evtType : GoType}
    {h : Nat} :
    h ∈ determineHandlers registry evtType ↔
      ∃ shape hh, (shape, hh) ∈ registry ∧ h ∈ hh ∧
        (shape = evtType ∨
          (shape.isIfaceKind = true ∧ goImplements evtType shape = true)) := by
  induction registry with
  | nil => simp [determineHandlers]
  | cons b rest ih =>
    obtain ⟨shape, hh⟩ := b
    constructor
    · intro hm
      rcases List.mem_append.mp hm with hm | hm
      · obtain ⟨hmem, hmatch⟩ := mem_bucketMatch.mp hm
        exact ⟨shape, hh, List.mem_cons_self _ _, hmem, hmatch⟩
      · obtain ⟨s, l, hs, hl, hmatch⟩ := ih.mp hm
        exact ⟨s, l, List.mem_cons_of_mem _ hs, hl, hmatch⟩
    · rintro ⟨s, l, hs, hl, hmatch⟩
      rcases List.mem_cons.mp hs with heq | hs
      · obtain ⟨rfl, rfl⟩ := Prod.mk.injEq .. ▸ heq
        exact List.mem_append.mpr (Or.inl (mem_bucketMatch.mpr ⟨hl, hmatch⟩))
      · exact List.mem_append.mpr (Or.inr (ih.mpr ⟨s, l, hs, hl, hmatch⟩))

theorem determineHandlers_bucket_infix {registry : List (GoType × List Nat)}
    {evtType shape : GoType} {hh : List Nat} (hmem : (shape, hh) ∈ registry)
    (hmatch : shape = evtType ∨
      (shape.isIfaceKind = true ∧ goImplements evtType shape = true)) :
    hh <:+: determineHandlers registry evtType := by
  induction registry with
  | nil => cases hmem
  | cons b rest ih =>
    obtain ⟨s, l⟩ := b
    rcases List.mem_cons.mp hmem with heq | hmem
    · obtain ⟨rfl, rfl⟩ := Prod.mk.injEq .. ▸ heq
      by_cases h1 : shape = evtType
      · exact ⟨[], (if shape.isIfaceKind && goImplements evtType shape then hh else []) ++
          determineHandlers rest evtType, by simp [determineHandlers, h1]⟩
      · rcases hmatch with h1' | ⟨hk, hi⟩
        · exact absurd h1' h1
        · exact ⟨[], determineHandlers rest evtType,
            by simp [determineHandlers, h1, hk, hi]⟩
    · obtain ⟨pre, post, hsplit⟩ := ih hmem
      exact ⟨((if s = evtType then l else []) ++
          (if s.isIfaceKind && goImplements evtType s then l else [])) ++ pre, post,
        by rw [determineHandlers]; rw [← hsplit]; simp⟩

/-- C8: for every dispatched event, the invoked handlers are exactly the
union over all registry buckets of exact-type matches and
interface-implementation matches (so a handler registered for the empty
interface receives every event); each matching bucket's handler list
appears contiguously and in registration order inside the result, while
order across buckets is not constrained by this characterization. -/
theorem determineHandlers_matches (registry : List (GoType × List Nat)) (evtType : GoType) :
    (∀ h, h ∈ determineHandlers registry evtType ↔
       ∃ shape hh, (shape, hh) ∈ registry ∧ h ∈ hh ∧
         (shape = evtType ∨
           (shape.isIfaceKind = true ∧ goImplements evtType shape = true))) ∧
    (∀ shape hh, (shape, hh) ∈ registry →
       (shape = evtType ∨
         (shape.isIfaceKind = true ∧ goImplements evtType shape = true)) →
       hh <:+: determineHandlers registry evtType) ∧
    (∀ hh h, (GoType.ifaceT [], hh) ∈ registry → h ∈ hh →
       h ∈ determineHandlers registry evtType) := by
  refine ⟨fun h => mem_determineHandlers, fun shape hh hb hm =>
    determineHandlers_bucket_infix hb hm, fun hh h hb hm => ?_⟩
  exact mem_determineHandlers.mpr ⟨GoType.ifaceT [], hh, hb, hm, Or.inr ⟨rfl, rfl⟩⟩

/-- Witness for C8: a registry holding an exact-type bucket and an
empty-interface bucket; both handlers are resolved for a plain struct
event, and the exact bucket's list is an infix of the result. -/
theorem determineHandlers_matches_witness :
    (3 ∈ determineHandlers [(GoType.concrete 1 [], [3, 4]), (GoType.ifaceT [], [9])]
        (GoType.concrete 1 [])) ∧
    ([3, 4] <:+: determineHandlers [(GoType.concrete 1 [], [3, 4]), (GoType.ifaceT [], [9])]
        (GoType.concrete 1 [])) ∧
    (9 ∈ determineHandlers [(GoType.concrete 1 [], [3, 4]), (GoType.ifaceT [], [9])]
        (GoType.concrete 1 [])) :=
  ⟨(determineHandlers_matches [(GoType.concrete 1 [], [3, 4]), (GoType.ifaceT [], [9])]
      (GoType.concrete 1 [])).1 3 |>.mpr
      ⟨GoType.concrete 1 [], [3, 4], by simp, by simp, Or.inl rfl⟩,
   (determineHandlers_matches [(GoType.concrete 1 [], [3, 4]), (GoType.ifaceT [], [9])]
      (GoType.concrete 1 [])).2.1 (GoType.concrete 1 []) [3, 4] (by simp) (Or.inl rfl),
   (determineHandlers_matches [(GoType.concrete 1 [], [3, 4]), (GoType.ifaceT [], [9])]
      (GoType.concrete 1 [])).2.2 [9] 9 (by simp) (by simp)⟩

/-! ### Event dispatch (`Brain.handleEvent`, `newHandlerFunc`)

An event carries a payload type (its tag), completion callbacks and the
mutable `AbortEarly` flag.  A registered handler is modelled by what its
invocation does: whether it calls `FinishEventContent` (setting the
current event's `AbortEarly` flag through the context) and whether it
returns normally, returns an error, or panics. -/

inductive EventTag where
  | user (n : Nat)
  | initEvt
  | shutdownEvt
  deriving DecidableEq, Repr

inductive HOutcome where
  | ok
  | fails (msg : String)
  | panics (msg : String)
  deriving DecidableEq, Repr

structure MHandler where
  hid : Nat
  setsAbort : Bool
  outcome : HOutcome
  deriving DecidableEq, Repr

/-- The wrapper built by `newHandlerFunc` (`brain.go`, lines 458-483): a
normal return yields no error, a returned error is passed through, and a
panic is recovered and converted to the error "handler panic: m" — it is
never propagated as a panic. -/
def runWrapped (h : MHandler) : Option String :=
  match h.outcome with
  | .ok => none
  | .fails m => some m
  | .panics m => some ("handler panic: " ++ m)

structure MEvent where
  tag : EventTag
  callbacks : List Nat
  abortEarly : Bool
  deriving DecidableEq, Repr

/-- What one `handleEvent` call did: the handlers invoked in order, the
errors logged, and the callbacks run after the handler pass. -/
structure DispatchLog where
  invoked : List Nat
  errors : List String
  callbacksRun : List Nat
  deriving DecidableEq, Repr

/-- The handler loop of `Brain.handleEvent` (`brain.go`, lines 308-323):
run each handler in order, log its (possibly panic-converted) error, and
stop after the first handler that leaves the event's `AbortEarly` flag
set. -/
def handlerPass (evt : MEvent) : List MHandler → MEvent × List Nat × List String
  | [] => (evt, [], [])
  | h :: rest =>
      let logged := match runWrapped h with
        | none => []
        | some e => [e]
      let evt1 : MEvent := { evt with abortEarly := evt.abortEarly || h.setsAbort }
      if evt1.abortEarly then (evt1, [h.hid], logged)
      else
        let r := handlerPass evt1 rest
        (r.1, h.hid :: r.2.1, logged ++ r.2.2)

/-- Model of `Brain.handleEvent` (`brain.go`, lines 296-328): resolve the handlers
for the event's type (`reg` is the resolved registry view), run the
handler pass, then run all the event's callbacks regardless of how the
pass ended. -/
def handleEvent (reg : EventTag → List MHandler) (evt : MEvent) : DispatchLog :=
  let r := handlerPass evt (reg evt.tag)
  { invoked := r.2.1, errors := r.2.2, callbacksRun := r.1.callbacks }

/-- The dispatch loop handling a list of events one at a time, in order
(`Brain.HandleEvents` receiving from `eventsLoop`). -/
def handleAll (reg : EventTag → List MHandler) : List MEvent → List DispatchLog
  | [] => []
  | e :: rest => handleEvent reg e :: handleAll reg rest

theorem handlerPass_callbacks (l : List MHandler) :
    ∀ evt : MEvent, (handlerPass evt l).1.callbacks = evt.callbacks := by
  induction l with
  | nil => intro evt; rfl
  | cons h rest ih =>
    intro evt
    rw [handlerPass]
    cases hab : evt.abortEarly || h.setsAbort
    · simp only [hab]
      simp only [Bool.false_eq_true, if_false]
      rw [ih]
    · simp [hab]

/-- C5: if two handlers are registered in that order for the same event
shape and the first calls `FinishEventContent`, dispatching a matching
event invokes the first handler but not the second, while the event's
callbacks still run after the aborted handler pass. -/
theorem abortEarly_skips_rest (reg : EventTag → List MHandler) (evt : MEvent)
    (h1 h2 : MHandler) (habort : h1.setsAbort = true)
    (hreg : reg evt.tag = [h1, h2]) (hstart : evt.abortEarly = false) :
    (handleEvent reg evt).invoked = [h1.hid] ∧
    (handleEvent reg evt).callbacksRun = evt.callbacks := by
  unfold handleEvent
  rw [hreg]
  simp [handlerPass, hstart, habort]

/-- Witness for C5: handler 1 aborts early, handler 2 is skipped, and
callback 7 still runs. -/
theorem abortEarly_skips_rest_witness :
    (handleEvent
        (fun t => if t = .user 0 then [⟨1, true, .ok⟩, ⟨2, false, .ok⟩] else [])
        ⟨.user 0, [7], false⟩).invoked = [1] ∧
    (handleEvent
        (fun t => if t = .user 0 then [⟨1, true, .ok⟩, ⟨2, false, .ok⟩] else [])
        ⟨.user 0, [7], false⟩).callbacksRun = [7] :=
  abortEarly_skips_rest _ ⟨.user 0, [7], false⟩ ⟨1, true, .ok⟩ ⟨2, false, .ok⟩ rfl rfl rfl

/-- C6: a handler that panics with message m does not crash the dispatch
loop: the wrapper converts the panic into the error "handler panic: m",
which is logged; the remaining handlers for the event still run, and a
subsequent event (of any shape) is dispatched exactly as it would be on
its own. -/
theorem handler_panic_contained (reg : EventTag → List MHandler) (m : String)
    (hp h2 : MHandler) (evt evt2 : MEvent)
    (hout : hp.outcome = .panics m) (hna : hp.setsAbort = false)
    (hreg : reg evt.tag = [hp, h2]) (hstart : evt.abortEarly = false) :
    runWrapped hp = some ("handler panic: " ++ m) ∧
    (handleEvent reg evt).invoked = [hp.hid, h2.hid] ∧
    ("handler panic: " ++ m) ∈ (handleEvent reg evt).errors ∧
    handleAll reg [evt, evt2] = [handleEvent reg evt, handleEvent reg evt2] := by
  refine ⟨by rw [runWrapped, hout], ?_, ?_, rfl⟩ <;>
    cases hab2 : h2.setsAbort <;>
      simp [handleEvent, hreg, handlerPass, hstart, hna, hab2, runWrapped, hout]

/-- Witness for C6: handler 1 panics with "boom"; handler 2 still runs,
the panic is logged as "handler panic: boom", and the later event of a
different shape is dispatched normally. -/
theorem handler_panic_contained_witness :
    runWrapped ⟨1, false, .panics "boom"⟩ = some ("handler panic: " ++ "boom") ∧
    (handleEvent
        (fun t => if t = .user 0 then [⟨1, false, .panics "boom"⟩, ⟨2, false, .ok⟩]
          else if t = .user 1 then [⟨3, false, .ok⟩] else [])
        ⟨.user 0, [], false⟩).invoked = [1, 2] ∧
    ("handler panic: " ++ "boom") ∈ (handleEvent
        (fun t => if t = .user 0 then [⟨1, false, .panics "boom"⟩, ⟨2, false, .ok⟩]
          else if t = .user 1 then [⟨3, false, .ok⟩] else [])
        ⟨.user 0, [], false⟩).errors ∧
    handleAll
        (fun t => if t = .user 0 then [⟨1, false, .panics "boom"⟩, ⟨2, false, .ok⟩]
          else if t = .user 1 then [⟨3, false, .ok⟩] else [])
        [⟨.user 0, [], false⟩, ⟨.user 1, [], false⟩] =
      [handleEvent
        (fun t => if t = .user 0 then [⟨1, false, .panics "boom"⟩, ⟨2, false, .ok⟩]
          else if t = .user 1 then [⟨3, false, .ok⟩] else [])
        ⟨.user 0, [], false⟩,
       handleEvent
        (fun t => if t = .user 0 then [⟨1, false, .panics "boom"⟩, ⟨2, false, .ok⟩]
          else if t = .user 1 then [⟨3, false, .ok⟩] else [])
        ⟨.user 1, [], false⟩] :=
  handler_panic_contained _ "boom" ⟨1, false, .panics "boom"⟩ ⟨2, false, .ok⟩
    ⟨.user 0, [], false⟩ ⟨.user 1, [], false⟩ rfl rfl rfl rfl

/-! ### The event queue (`Brain.consumeEvents`)

`consumeEvents` runs a goroutine with an internal slice `queue`: it either
receives one event from `eventsInput` and appends it to the tail, or sends
the head of a non-empty queue on `eventsLoop` and drops it.  We model the
two `select` cases as a step relation; the producer's emission order is
the initial `pendingInput` list. -/

structure QueueState where
  pendingInput : List MEvent
  queue : List MEvent
  sent : List MEvent
  deriving DecidableEq, Repr

/-- One `select` iteration of the `consumeEvents` goroutine: either
receive the next emitted event and append it to the buffer's tail, or
deliver the buffer's head to `eventsLoop` (only enabled when the buffer is
non-empty, via the nil-channel trick of `outChan`). -/
inductive QStep : QueueState → QueueState → Prop
  | recv (e : MEvent) (p q s : List MEvent) :
      QStep ⟨e :: p, q, s⟩ ⟨p, q ++ [e], s⟩
  | send (e : MEvent) (p q s : List MEvent) :
      QStep ⟨p, e :: q, s⟩ ⟨p, q, s ++ [e]⟩

theorem qstep_preserves {a b : QueueState} (h : QStep a b) :
    b.sent ++ b.queue ++ b.pendingInput = a.sent ++ a.queue ++ a.pendingInput := by
  cases h <;> simp

/-- C2: the event queue is strict FIFO.  From an initial state holding the
producer's emission sequence, every interleaving of receive and deliver
steps keeps `sent ++ queue ++ pendingInput` equal to the emission
sequence; hence the delivered sequence is always an initial segment of the
emission sequence, and once everything has been received and delivered it
equals the emission sequence exactly — the dispatch loop therefore sees
the events in the order `Emit` was called. -/
theorem queue_fifo (inp : List MEvent) (st : QueueState)
    (h : Relation.ReflTransGen QStep ⟨inp, [], []⟩ st) :
    st.sent ++ st.queue ++ st.pendingInput = inp ∧
    st.sent <+: inp ∧
    (st.pendingInput = [] → st.queue = [] → st.sent = inp) := by
  have hinv : st.sent ++ st.queue ++ st.pendingInput = inp := by
    induction h with
    | refl => simp
    | tail hsteps hstep ih => rw [qstep_preserves hstep, ih]
  refine ⟨hinv, ⟨st.queue ++ st.pendingInput, by rw [← List.append_assoc, hinv]⟩, ?_⟩
  intro hp hq
  rw [hp, hq] at hinv
  simpa using hinv

/-- Witness for C2: receiving then delivering two events yields the
emission sequence. -/
theorem queue_fifo_witness :
    (QueueState.mk [] [] [⟨.user 1, [], false⟩, ⟨.user 2, [], false⟩]).sent =
      [MEvent.mk (.user 1) [] false, MEvent.mk (.user 2) [] false] :=
  (queue_fifo [⟨.user 1, [], false⟩, ⟨.user 2, [], false⟩]
      (QueueState.mk [] [] [⟨.user 1, [], false⟩, ⟨.user 2, [], false⟩])
      (Relation.ReflTransGen.tail
        (Relation.ReflTransGen.tail
          (Relation.ReflTransGen.tail
            (Relation.ReflTransGen.tail Relation.ReflTransGen.refl
              (QStep.recv ⟨.user 1, [], false⟩ [⟨.user 2, [], false⟩] [] []))
            (QStep.recv ⟨.user 2, [], false⟩ [] [⟨.user 1, [], false⟩] []))
          (QStep.send ⟨.user 1, [], false⟩ [] [⟨.user 2, [], false⟩] []))
        (QStep.send ⟨.user 2, [], false⟩ [] [] [⟨.user 1, [], false⟩]))).2.2 rfl rfl

/-! ### Shutdown drain (`Brain.HandleEvents` + `Brain.Shutdown`) -/

/-- The flush loop of the `consumeEvents` goroutine once `eventsInput` is
closed: forward every buffered event to `eventsLoop` in order, then close
`eventsLoop` (`brain.go`, lines 273-283). -/
def flushQueue : List MEvent → List MEvent
  | [] => []
  | e :: rest => e :: flushQueue rest

/-- An observable step of the shutdown phase: a fully dispatched event
(handlers and callbacks done) or the completion signal on the shutdown
request's callback channel, which is what lets `Brain.Shutdown` return. -/
inductive TraceItem where
  | dispatched (tag : EventTag) (log : DispatchLog)
  | shutdownSignal
  deriving DecidableEq, Repr

/-- Model of `Brain.HandleEvents` after a shutdown request arrived (`brain.go`,
lines 211-235): keep handling the events still coming from `eventsLoop`;
when that channel closes, dispatch the synthetic `ShutdownEvent` and then
signal the shutdown callback. -/
def drainLoop (reg : EventTag → List MHandler) : List MEvent → List TraceItem
  | [] => [.dispatched .shutdownEvt (handleEvent reg ⟨.shutdownEvt, [], false⟩),
           .shutdownSignal]
  | e :: rest => .dispatched e.tag (handleEvent reg e) :: drainLoop reg rest

/-- A complete `Brain.HandleEvents` run: the synthetic `InitEvent` first,
then the events dispatched while running (`done`), then — once
`Brain.Shutdown` wins the CAS and the loop closes `eventsInput` — the
drain of the backlog that `consumeEvents` flushes, the `ShutdownEvent`,
and the completion signal. -/
def handleEventsRun (reg : EventTag → List MHandler) (done backlog : List MEvent) :
    List TraceItem :=
  TraceItem.dispatched .initEvt (handleEvent reg ⟨.initEvt, [], false⟩) ::
    ((done.map fun e => TraceItem.dispatched e.tag (handleEvent reg e)) ++
      drainLoop reg (flushQueue backlog))

theorem flushQueue_id : ∀ l : List MEvent, flushQueue l = l := by
  intro l
  induction l with
  | nil => rfl
  | cons e rest ih => rw [flushQueue, ih]

theorem drainLoop_eq (reg : EventTag → List MHandler) :
    ∀ l : List MEvent,
      drainLoop reg l =
        (l.map fun e => TraceItem.dispatched e.tag (handleEvent reg e)) ++
          [TraceItem.dispatched .shutdownEvt (handleEvent reg ⟨.shutdownEvt, [], false⟩),
           TraceItem.shutdownSignal] := by
  intro l
  induction l with
  | nil => rfl
  | cons e rest ih => rw [drainLoop, ih]; rfl

theorem handleEventsRun_eq (reg : EventTag → List MHandler) (done backlog : List MEvent) :
    handleEventsRun reg done backlog =
      TraceItem.dispatched .initEvt (handleEvent reg ⟨.initEvt, [], false⟩) ::
        (((done ++ backlog).map fun e => TraceItem.dispatched e.tag (handleEvent reg e)) ++
          [TraceItem.dispatched .shutdownEvt (handleEvent reg ⟨.shutdownEvt, [], false⟩),
           TraceItem.shutdownSignal]) := by
  rw [handleEventsRun, flushQueue_id, drainLoop_eq]
  simp [List.map_append]

/-- C1: every event accepted before shutdown (those already handled plus
the queue backlog) is fully dispatched — handlers executed and callbacks
run — at a trace position strictly before the synthetic `ShutdownEvent`,
the `ShutdownEvent` is dispatched only once that backlog is exhausted, and
the completion signal that lets `Shutdown` return is the very last step of
the run. -/
theorem drain_before_shutdown (reg : EventTag → List MHandler)
    (done backlog emitted : List MEvent) (hsplit : emitted = done ++ backlog) :
    (handleEventsRun reg done backlog).get? (emitted.length + 1) =
      some (.dispatched .shutdownEvt (handleEvent reg ⟨.shutdownEvt, [], false⟩)) ∧
    (∀ e ∈ emitted, ∃ i, i < emitted.length + 1 ∧
      (handleEventsRun reg done backlog).get? i =
        some (.dispatched e.tag (handleEvent reg e))) ∧
    (handleEventsRun reg done backlog).getLast? = some .shutdownSignal := by
  subst hsplit
  rw [handleEventsRun_eq]
  refine ⟨?_, ?_, ?_⟩
  · rw [List.get?_cons_succ, List.get?_append_right (by simp)]
    simp
  · intro e he
    obtain ⟨⟨k, hk⟩, hget⟩ := List.mem_iff_get.mp he
    refine ⟨k + 1, by omega, ?_⟩
    rw [List.get?_cons_succ, List.get?_append (by simpa using hk), List.get?_map,
      List.get?_eq_get hk, hget]
    rfl
  · rw [show TraceItem.dispatched .initEvt (handleEvent reg ⟨.initEvt, [], false⟩) ::
        ((((done ++ backlog).map fun e =>
            TraceItem.dispatched e.tag (handleEvent reg e))) ++
          [TraceItem.dispatched .shutdownEvt (handleEvent reg ⟨.shutdownEvt, [], false⟩),
           TraceItem.shutdownSignal]) =
        (TraceItem.dispatched .initEvt (handleEvent reg ⟨.initEvt, [], false⟩) ::
          (((done ++ backlog).map fun e =>
              TraceItem.dispatched e.tag (handleEvent reg e)) ++
            [TraceItem.dispatched .shutdownEvt
              (handleEvent reg ⟨.shutdownEvt, [], false⟩)])) ++
          [TraceItem.shutdownSignal] by simp]
    exact List.getLast?_concat _

/-- Witness for C1: one event already handled and one backlogged event;
the ShutdownEvent sits at position 3, event 1 is dispatched earlier, and
the shutdown signal is last. -/
theorem drain_before_shutdown_witness :
    (handleEventsRun (fun _ => []) [⟨.user 1, [], false⟩] [⟨.user 2, [], false⟩]).get? 3 =
      some (.dispatched .shutdownEvt
        (handleEvent (fun _ => []) ⟨.shutdownEvt, [], false⟩)) ∧
    (∃ i, i < 3 ∧
      (handleEventsRun (fun _ => []) [⟨.user 1, [], false⟩]
          [⟨.user 2, [], false⟩]).get? i =
        some (.dispatched (EventTag.user 2)
          (handleEvent (fun _ => []) ⟨.user 2, [], false⟩))) ∧
    (handleEventsRun (fun _ => []) [⟨.user 1, [], false⟩]
        [⟨.user 2, [], false⟩]).getLast? = some .shutdownSignal :=
  ⟨(drain_before_shutdown (fun _ => []) [⟨.user 1, [], false⟩] [⟨.user 2, [], false⟩]
      [⟨.user 1, [], false⟩, ⟨.user 2, [], false⟩] rfl).1,
   (drain_before_shutdown (fun _ => []) [⟨.user 1, [], false⟩] [⟨.user 2, [], false⟩]
      [⟨.user 1, [], false⟩, ⟨.user 2, [], false⟩] rfl).2.1
      ⟨.user 2, [], false⟩ (by simp),
   (drain_before_shutdown (fun _ => []) [⟨.user 1, [], false⟩] [⟨.user 2, [], false⟩]
      [⟨.user 1, [], false⟩, ⟨.user 2, [], false⟩] rfl).2.2⟩

/-! ### `Brain.Emit` after the brain is closed -/

/-- The brain state `Emit` interacts with: the atomically read `closed`
flag, the sequence of events accepted into `eventsInput` (these are
exactly the events the queue and dispatch loop ever see), and the debug
log. -/
structure EmitState where
  closed : Bool
  accepted : List MEvent
  debugLog : List String
  deriving DecidableEq, Repr

/-- Model of `Brain.Emit` (`brain.go`, lines 185-195): when the brain is closed the
event is dropped with one debug log entry and nothing else happens; the
call performs no channel operation, so it cannot block or panic.
Otherwise the event is handed to `eventsInput`. -/
def Emit (st : EmitState) (e : MEvent) : EmitState :=
  if st.closed then
    { st with debugLog := st.debugLog ++
        ["Ignoring new event because brain is currently shutting down or is already closed"] }
  else
    { st with accepted := st.accepted ++ [e] }

/-- Any number of consecutive `Emit` calls. -/
def emitAll (st : EmitState) : List MEvent → EmitState
  | [] => st
  | e :: rest => emitAll (Emit st e) rest

/-- C3: once the brain is closed, any number of subsequent `Emit` calls
leave the set of accepted events unchanged — so no new event is ever
handed to the queue or dispatched — the brain stays closed, and each call
merely appends one debug log entry and returns. -/
theorem emit_after_closed_noop (st : EmitState) (hclosed : st.closed = true) :
    ∀ evts : List MEvent,
      (emitAll st evts).accepted = st.accepted ∧
      (emitAll st evts).closed = true ∧
      (emitAll st evts).debugLog.length = st.debugLog.length + evts.length := by
  intro evts
  induction evts generalizing st with
  | nil => exact ⟨rfl, hclosed, rfl⟩
  | cons e rest ih =>
    have hstep : Emit st e = { st with debugLog := st.debugLog ++
        ["Ignoring new event because brain is currently shutting down or is already closed"] } := by
      rw [Emit, hclosed]
      rfl
    obtain ⟨h1, h2, h3⟩ := ih (Emit st e) (by rw [hstep, hclosed])
    refine ⟨?_, h2, ?_⟩
    · rw [emitAll, h1, hstep]
    · rw [emitAll, h3, hstep]
      simp
      omega

/-- Witness for C3: two emits against a closed brain accept nothing and
log twice. -/
theorem emit_after_closed_noop_witness :
    (emitAll ⟨true, [], []⟩ [⟨.user 1, [], false⟩, ⟨.user 2, [], false⟩]).accepted = [] ∧
    (emitAll ⟨true, [], []⟩ [⟨.user 1, [], false⟩, ⟨.user 2, [], false⟩]).closed = true ∧
    (emitAll ⟨true, [], []⟩ [⟨.user 1, [], false⟩, ⟨.user 2, [], false⟩]).debugLog.length =
      0 + 2 :=
  emit_after_closed_noop ⟨true, [], []⟩ rfl [⟨.user 1, [], false⟩, ⟨.user 2, [], false⟩]

/-! ### `Brain.Shutdown` idempotency -/

/-- The lifecycle flags `Brain.Shutdown` consults, plus whether the
in-flight shutdown has already signalled completion (`shutdownComplete` is
false while a winning `Shutdown` call is still draining). -/
structure BrainFlags where
  handlingEvents : Bool
  closed : Bool
  shutdownComplete : Bool
  deriving DecidableEq, Repr

/-- What one `Shutdown` call did: whether it closed `eventsInput` itself,
whether it sent a `shutdownRequest` to `HandleEvents`, and whether it
blocked waiting for the drain to finish. -/
structure ShutdownObs where
  closedInput : Bool
  sentRequest : Bool
  waited : Bool
  deriving DecidableEq, Repr

/-- Model of `Brain.Shutdown` (`brain.go`, lines 373-410): the compare-and-swap on
the `closed` flag decides everything.  The loser of the CAS returns at
once, performing no channel operation at all; the winner either closes
`eventsInput` itself and drains (loop not running) or hands a shutdown
request to the loop and blocks on its callback. -/
def Shutdown (st : BrainFlags) : ShutdownObs × BrainFlags :=
  if st.closed then
    (⟨false, false, false⟩, st)
  else if st.handlingEvents = false then
    (⟨true, false, true⟩, { st with closed := true, shutdownComplete := true })
  else
    (⟨false, true, true⟩,
      { handlingEvents := false, closed := true, shutdownComplete := true })

/-- C4 counterexample: the claim says a second caller while shutdown is in
progress "either waits ... for the ongoing shutdown to complete, or
returns immediately if the brain is already fully closed".  In the state
where the CAS has been won but the drain has not completed
(`closed = true`, `shutdownComplete = false`) the code returns immediately
without waiting, so the claim as stated is false. -/
theorem shutdown_wait_counterexample :
    ¬ (∀ st : BrainFlags, st.closed = true →
        (Shutdown st).1.waited = true ∨ st.shutdownComplete = true) := by
  intro h
  have := h ⟨true, true, false⟩ rfl
  simp [Shutdown] at this

/-- C4 (amended): `Shutdown` is idempotent in the structural sense: a
caller that loses the CAS performs no second structural shutdown (it
neither closes the queue input nor sends a shutdown request) and returns
immediately with the state unchanged, whether or not the ongoing shutdown
has completed; moreover a single call performs at most one structural
shutdown action, and after any completed call every further call is a
complete no-op. -/
theorem shutdown_idempotent (st : BrainFlags) :
    (st.closed = true → Shutdown st = (⟨false, false, false⟩, st)) ∧
    ((Shutdown st).1.closedInput = false ∨ (Shutdown st).1.sentRequest = false) ∧
    ((Shutdown (Shutdown st).2).1.closedInput = false ∧
     (Shutdown (Shutdown st).2).1.sentRequest = false ∧
     (Shutdown (Shutdown st).2).2 = (Shutdown st).2) := by
  obtain ⟨he, hc, hs⟩ := st
  cases he <;> cases hc <;> cases hs <;>
    exact ⟨fun h => by simp_all [Shutdown], by simp [Shutdown], by simp [Shutdown]⟩

/-- Witness for C4 (amended): calling `Shutdown` on an already fully
closed brain changes nothing and reports no structural action. -/
theorem shutdown_idempotent_witness :
    Shutdown ⟨false, true, true⟩ = (⟨false, false, false⟩, ⟨false, true, true⟩) :=
  (shutdown_idempotent ⟨false, true, true⟩).1 rfl

end Joe
